import Mathlib

set_option maxRecDepth 100000

/-!
A shallow embedding of the TeenyJVM bytecode interpreter (`src/jvm.c`) and a
verification of the specification's claims about it.

The embedding follows the source function `execute` case by case, in the order
of the C `switch`.  Machine integers are modelled as `Int` with explicit
reduction modulo `2 ^ 32` (`wrap32`, `toSigned32`); the `size_t` program
counter wraps modulo `2 ^ 64` (`pcAdd`).  Points at which the C source has
undefined behaviour that the claims exercise or border on — shift amounts
outside `[0, 32)`, the overflowing division `INT_MIN / -1`, out-of-bounds heap
accesses, operand-stack underflow — are modelled as the `Res.trap` outcome.
Out-of-bounds local-variable accesses (undefined in C, not exercised by any
claim) are modelled benignly: reads default to 0, writes are dropped.

The repository's `heap.c`, `read_class.c` and `jvm.h` are not available, only
`jvm.c`; the heap, the class view and the opcode byte values are therefore
modelled from the specification (§4.1, §4.2, §6), as noted on each definition.
-/

namespace TeenyJVM

/-- Two's-complement wrap-around to a signed 32-bit value: the value an
`int32_t` holds after the C arithmetic producing `x`. -/
def wrap32 (x : Int) : Int := (x + 2 ^ 31) % 2 ^ 32 - 2 ^ 31

/-- Interpret a machine word (a natural number) as a signed 32-bit integer. -/
def toSigned32 (n : Nat) : Int :=
  if n % 2 ^ 32 < 2 ^ 31 then ((n % 2 ^ 32 : Nat) : Int)
  else ((n % 2 ^ 32 : Nat) : Int) - 2 ^ 32

/-- The unsigned 32-bit word holding the two's-complement bits of `x`:
the C cast `(uint32_t) x`. -/
def u32ofInt (x : Int) : Nat := (x % 2 ^ 32).toNat

/-- Sign extension of a byte: the C cast `(int8_t) b` applied to an
unsigned code byte. -/
def sext8 (b : Nat) : Int :=
  if b % 256 < 128 then ((b % 256 : Nat) : Int) else ((b % 256 : Nat) : Int) - 256

/-- Sign extension of a 16-bit value: the C cast `(short) x`. -/
def sext16 (x : Nat) : Int :=
  if x % 65536 < 32768 then ((x % 65536 : Nat) : Int)
  else ((x % 65536 : Nat) : Int) - 65536

/-- The 16-bit operand composition the source uses for branch offsets and
`invokestatic` indices (`src/jvm.c:212-214` and the like):
`int16_t b1 = code[pc+1]; int8_t b2 = code[pc+2]; (b1 << 8) | b2`.
`b1` is zero-extended, `b2` is sign-extended to `int` before the bitwise or. -/
def srcOff16 (b1 b2 : Nat) : Int :=
  toSigned32 (Nat.lor ((b1 % 256) <<< 8) (u32ofInt (sext8 (b2 % 256))))

/-- Modelled from the spec: the branch-offset decoding §4.4 and §9 mandate,
`sign_extend_i16((b1 << 8) | (b2 & 0xFF))`, both bytes read as unsigned and
the 16-bit composition sign-extended.  Stated only to compare against
`srcOff16`, the decoding the source actually performs. -/
def specOff16 (b1 b2 : Nat) : Int :=
  sext16 (Nat.lor ((b1 % 256) <<< 8) (b2 % 256))

/-- `pc += off` on the `size_t` program counter: wraps modulo `2 ^ 64`. -/
def pcAdd (pc : Nat) (off : Int) : Nat := (((pc : Int) + off) % 2 ^ 64).toNat

/-- Read the code byte at index `i` (`method->code.code[i]`). -/
def byteAt (code : List Nat) (i : Nat) : Nat := code.getD i 0

/-- The branch target the source computes for a branch opcode at `pc`. -/
def branchTarget (code : List Nat) (pc : Nat) : Nat :=
  pcAdd pc (srcOff16 (byteAt code (pc + 1)) (byteAt code (pc + 2)))

/-! ### Opcode byte values

Modelled from the spec (§6): `jvm.h` is not under `src/`, and the spec fixes
the opcode bytes to the constants of the class-file specification
(`iconst_0 = 0x03`, `bipush = 0x10`, `goto = 0xA7`, with the `iconst`,
`iload`, `istore`, `aload`, `astore` ranges contiguous). -/

def i_nop : Nat := 0x00
def i_iconst_m1 : Nat := 0x02
def i_iconst_0 : Nat := 0x03
def i_iconst_5 : Nat := 0x08
def i_bipush : Nat := 0x10
def i_sipush : Nat := 0x11
def i_ldc : Nat := 0x12
def i_iload : Nat := 0x15
def i_aload : Nat := 0x19
def i_iload_0 : Nat := 0x1A
def i_iload_3 : Nat := 0x1D
def i_aload_0 : Nat := 0x2A
def i_aload_3 : Nat := 0x2D
def i_iaload : Nat := 0x2E
def i_istore : Nat := 0x36
def i_astore : Nat := 0x3A
def i_istore_0 : Nat := 0x3B
def i_istore_3 : Nat := 0x3E
def i_astore_0 : Nat := 0x4B
def i_astore_3 : Nat := 0x4E
def i_iastore : Nat := 0x4F
def i_dup : Nat := 0x59
def i_iadd : Nat := 0x60
def i_isub : Nat := 0x64
def i_imul : Nat := 0x68
def i_idiv : Nat := 0x6C
def i_irem : Nat := 0x70
def i_ineg : Nat := 0x74
def i_ishl : Nat := 0x78
def i_ishr : Nat := 0x7A
def i_iushr : Nat := 0x7C
def i_iand : Nat := 0x7E
def i_ior : Nat := 0x80
def i_ixor : Nat := 0x82
def i_iinc : Nat := 0x84
def i_ifeq : Nat := 0x99
def i_ifne : Nat := 0x9A
def i_iflt : Nat := 0x9B
def i_ifge : Nat := 0x9C
def i_ifgt : Nat := 0x9D
def i_ifle : Nat := 0x9E
def i_if_icmpeq : Nat := 0x9F
def i_if_icmpne : Nat := 0xA0
def i_if_icmplt : Nat := 0xA1
def i_if_icmpge : Nat := 0xA2
def i_if_icmpgt : Nat := 0xA3
def i_if_icmple : Nat := 0xA4
def i_goto : Nat := 0xA7
def i_ireturn : Nat := 0xAC
def i_areturn : Nat := 0xB0
def i_return : Nat := 0xB1
def i_getstatic : Nat := 0xB2
def i_invokevirtual : Nat := 0xB6
def i_invokestatic : Nat := 0xB8
def i_newarray : Nat := 0xBC
def i_arraylength : Nat := 0xBE

/-! ### Class view and frames -/

/-- A method's code attribute (`code`, `max_stack`, `max_locals`). -/
structure CodeAttr where
  max_stack : Nat
  max_locals : Nat
  code : List Nat
deriving DecidableEq

/-- A method of the loaded class.  The `num_params` field is modelled from the
spec: `get_number_of_parameters` lives in `read_class.c`, which is not under
`src/`; the spec (§4.2) specifies it as the arity parsed from the method
descriptor, so the model carries the arity directly. -/
structure Method where
  name : String
  descriptor : String
  num_params : Nat
  code : CodeAttr
deriving DecidableEq

/-- The class view (§4.2).  Modelled from the spec: `read_class.c` is not
under `src/`.  `constant_pool` holds the `CONSTANT_Integer` `bytes` values
consulted by `ldc` (0-based), and `method_refs` associates the constant-pool
indices of `CONSTANT_MethodRef` entries with the methods they resolve to. -/
structure ClassFile where
  constant_pool : List Int
  methods : List Method
  method_refs : List (Int × Method)
deriving DecidableEq

/-- Modelled from the spec: `find_method(name, descriptor)` from
`read_class.c` is a linear scan of the method table (§4.2). -/
def find_method (name descr : String) (cl : ClassFile) : Option Method :=
  cl.methods.find? (fun mm => mm.name == name && mm.descriptor == descr)

/-- Modelled from the spec: `find_method_from_index(i)` from `read_class.c`
resolves the method-reference constant-pool entry at index `i` to the
corresponding method of this class (§4.2). -/
def find_method_from_index (idx : Int) (cl : ClassFile) : Option Method :=
  (cl.method_refs.find? (fun p => p.fst == idx)).map (fun p => p.snd)

/-- The argument-popping loop of `i_invokestatic` (`src/jvm.c:374-377`):
`for (i = num_params - 1; i >= 0; i--) { stack_idx -= 1; callee_locals[i] = operand_stack[stack_idx]; }`.
Returns the remaining stack and the filled locals; `none` on stack underflow
(undefined behaviour in the C source). -/
def popArgs : Nat → List Int → List Int → Option (List Int × List Int)
  | 0, stk, loc => some (stk, loc)
  | _ + 1, [], _ => none
  | i + 1, v :: stk, loc => popArgs i stk (loc.set i v)

/-- Push a returned value if the callee produced one (`src/jvm.c:380-383`). -/
def pushRet (r : Option Int) (stk : List Int) : List Int :=
  match r with
  | some v => v :: stk
  | none => stk

/-- The buffer the heap holds at reference `r` (`heap_get`).  Modelled from
the spec: `heap.c` is not under `src/`; §4.1 specifies `get` as retrieval by
index of a previously added buffer. -/
def heapAt (hp : List (List Int)) (r : Int) : List Int := hp.getD r.toNat []

/-- Outcome of running `execute`: a return (`optional_value_t` plus the final
heap and output), a fatal trap (a failed `assert` or undefined behaviour), or
fuel exhaustion of the model. -/
inductive Res where
  | done (ret : Option Int) (heap : List (List Int)) (out : List Int)
  | trap
  | fuelOut
deriving DecidableEq

/-- The interpreter loop `execute` (`src/jvm.c:45-470`), as a fuel-indexed
function.  Arguments: fuel, class, method, `pc`, operand stack (top first),
locals, heap, output so far.  Each dispatched instruction and each recursive
`invokestatic` call consumes one unit of fuel.  The case order follows the C
`switch`; the final `else` is the behaviour of that `switch` for an opcode
matching no case: nothing happens and the loop re-dispatches at the same
`pc`. -/
def exec : Nat → ClassFile → Method → Nat → List Int → List Int →
    List (List Int) → List Int → Res
  | 0, _, _, _, _, _, _, _ => Res.fuelOut
  | n + 1, cl, m, pc, stk, loc, hp, out =>
    if pc < m.code.code.length then
      let op := byteAt m.code.code pc
      if op = i_bipush then
        exec n cl m (pc + 2) (sext8 (byteAt m.code.code (pc + 1)) :: stk) loc hp out
      else if op = i_iadd then
        match stk with
        | b :: a :: rest => exec n cl m (pc + 1) (wrap32 (a + b) :: rest) loc hp out
        | _ => Res.trap
      else if op = i_return then
        Res.done none hp out
      else if op = i_getstatic then
        exec n cl m (pc + 3) stk loc hp out
      else if op = i_invokevirtual then
        match stk with
        | v :: rest => exec n cl m (pc + 3) rest loc hp (out ++ [v])
        | _ => Res.trap
      else if i_iconst_m1 ≤ op ∧ op ≤ i_iconst_5 then
        exec n cl m (pc + 1) (((op : Int) - (i_iconst_0 : Int)) :: stk) loc hp out
      else if op = i_sipush then
        exec n cl m (pc + 3)
          (sext16 (Nat.lor (byteAt m.code.code (pc + 1) <<< 8) (byteAt m.code.code (pc + 2))) :: stk)
          loc hp out
      else if op = i_isub then
        match stk with
        | b :: a :: rest => exec n cl m (pc + 1) (wrap32 (a - b) :: rest) loc hp out
        | _ => Res.trap
      else if op = i_imul then
        match stk with
        | b :: a :: rest => exec n cl m (pc + 1) (wrap32 (a * b) :: rest) loc hp out
        | _ => Res.trap
      else if op = i_idiv then
        match stk with
        | b :: a :: rest =>
          if b = 0 then Res.trap
          else if a = -(2 ^ 31) ∧ b = -1 then Res.trap
          else exec n cl m (pc + 1) (a.tdiv b :: rest) loc hp out
        | _ => Res.trap
      else if op = i_irem then
        match stk with
        | b :: a :: rest =>
          if b = 0 then Res.trap
          else if a = -(2 ^ 31) ∧ b = -1 then Res.trap
          else exec n cl m (pc + 1) (a.tmod b :: rest) loc hp out
        | _ => Res.trap
      else if op = i_ineg then
        match stk with
        | a :: rest => exec n cl m (pc + 1) (wrap32 (-a) :: rest) loc hp out
        | _ => Res.trap
      else if op = i_ishl then
        match stk with
        | b :: a :: rest =>
          if 0 ≤ b ∧ b < 32 then
            exec n cl m (pc + 1) (wrap32 (a * 2 ^ b.toNat) :: rest) loc hp out
          else Res.trap
        | _ => Res.trap
      else if op = i_ishr then
        match stk with
        | b :: a :: rest =>
          if 0 ≤ b ∧ b < 32 then
            exec n cl m (pc + 1) (Int.fdiv a (2 ^ b.toNat) :: rest) loc hp out
          else Res.trap
        | _ => Res.trap
      else if op = i_iushr then
        match stk with
        | b :: a :: rest =>
          if 0 ≤ b ∧ b < 32 then
            exec n cl m (pc + 1) (toSigned32 (u32ofInt a >>> b.toNat) :: rest) loc hp out
          else Res.trap
        | _ => Res.trap
      else if op = i_iand then
        match stk with
        | b :: a :: rest =>
          exec n cl m (pc + 1) (toSigned32 (Nat.land (u32ofInt a) (u32ofInt b)) :: rest) loc hp out
        | _ => Res.trap
      else if op = i_ior then
        match stk with
        | b :: a :: rest =>
          exec n cl m (pc + 1) (toSigned32 (Nat.lor (u32ofInt a) (u32ofInt b)) :: rest) loc hp out
        | _ => Res.trap
      else if op = i_ixor then
        match stk with
        | b :: a :: rest =>
          exec n cl m (pc + 1) (toSigned32 (Nat.xor (u32ofInt a) (u32ofInt b)) :: rest) loc hp out
        | _ => Res.trap
      else if op = i_iload then
        exec n cl m (pc + 2) (loc.getD (byteAt m.code.code (pc + 1)) 0 :: stk) loc hp out
      else if i_iload_0 ≤ op ∧ op ≤ i_iload_3 then
        exec n cl m (pc + 1) (loc.getD (op - i_iload_0) 0 :: stk) loc hp out
      else if op = i_istore then
        match stk with
        | v :: rest => exec n cl m (pc + 2) rest (loc.set (byteAt m.code.code (pc + 1)) v) hp out
        | _ => Res.trap
      else if i_istore_0 ≤ op ∧ op ≤ i_istore_3 then
        match stk with
        | v :: rest => exec n cl m (pc + 1) rest (loc.set (op - i_istore_0) v) hp out
        | _ => Res.trap
      else if op = i_iinc then
        exec n cl m (pc + 3) stk
          (loc.set (byteAt m.code.code (pc + 1))
            (wrap32 (loc.getD (byteAt m.code.code (pc + 1)) 0 + sext8 (byteAt m.code.code (pc + 2)))))
          hp out
      else if op = i_ldc then
        if byteAt m.code.code (pc + 1) = 0 then Res.trap
        else
          exec n cl m (pc + 2)
            (cl.constant_pool.getD (byteAt m.code.code (pc + 1) - 1) 0 :: stk) loc hp out
      else if op = i_ifeq then
        match stk with
        | a :: rest =>
          exec n cl m (if a = 0 then branchTarget m.code.code pc else pc + 3) rest loc hp out
        | _ => Res.trap
      else if op = i_ifne then
        match stk with
        | a :: rest =>
          exec n cl m (if a ≠ 0 then branchTarget m.code.code pc else pc + 3) rest loc hp out
        | _ => Res.trap
      else if op = i_iflt then
        match stk with
        | a :: rest =>
          exec n cl m (if a < 0 then branchTarget m.code.code pc else pc + 3) rest loc hp out
        | _ => Res.trap
      else if op = i_ifge then
        match stk with
        | a :: rest =>
          exec n cl m (if a ≥ 0 then branchTarget m.code.code pc else pc + 3) rest loc hp out
        | _ => Res.trap
      else if op = i_ifgt then
        match stk with
        | a :: rest =>
          exec n cl m (if a > 0 then branchTarget m.code.code pc else pc + 3) rest loc hp out
        | _ => Res.trap
      else if op = i_ifle then
        match stk with
        | a :: rest =>
          exec n cl m (if a ≤ 0 then branchTarget m.code.code pc else pc + 3) rest loc hp out
        | _ => Res.trap
      else if op = i_if_icmpeq then
        match stk with
        | b :: a :: rest =>
          exec n cl m (if a = b then branchTarget m.code.code pc else pc + 3) rest loc hp out
        | _ => Res.trap
      else if op = i_if_icmpne then
        match stk with
        | b :: a :: rest =>
          exec n cl m (if a ≠ b then branchTarget m.code.code pc else pc + 3) rest loc hp out
        | _ => Res.trap
      else if op = i_if_icmplt then
        match stk with
        | b :: a :: rest =>
          exec n cl m (if a < b then branchTarget m.code.code pc else pc + 3) rest loc hp out
        | _ => Res.trap
      else if op = i_if_icmpge then
        match stk with
        | b :: a :: rest =>
          exec n cl m (if a ≥ b then branchTarget m.code.code pc else pc + 3) rest loc hp out
        | _ => Res.trap
      else if op = i_if_icmpgt then
        match stk with
        | b :: a :: rest =>
          exec n cl m (if a > b then branchTarget m.code.code pc else pc + 3) rest loc hp out
        | _ => Res.trap
      else if op = i_if_icmple then
        match stk with
        | b :: a :: rest =>
          exec n cl m (if a ≤ b then branchTarget m.code.code pc else pc + 3) rest loc hp out
        | _ => Res.trap
      else if op = i_goto then
        exec n cl m (branchTarget m.code.code pc) stk loc hp out
      else if op = i_ireturn then
        match stk with
        | v :: _ => Res.done (some v) hp out
        | _ => Res.trap
      else if op = i_invokestatic then
        match find_method_from_index
            (srcOff16 (byteAt m.code.code (pc + 1)) (byteAt m.code.code (pc + 2))) cl with
        | none => Res.trap
        | some callee =>
          match popArgs callee.num_params stk (List.replicate callee.code.max_locals 0) with
          | none => Res.trap
          | some (stk', newLoc) =>
            match exec n cl callee 0 [] newLoc hp out with
            | Res.done r hp' out' => exec n cl m (pc + 3) (pushRet r stk') loc hp' out'
            | Res.trap => Res.trap
            | Res.fuelOut => Res.fuelOut
      else if op = i_nop then
        exec n cl m (pc + 1) stk loc hp out
      else if op = i_dup then
        match stk with
        | a :: rest => exec n cl m (pc + 1) (a :: a :: rest) loc hp out
        | _ => Res.trap
      else if op = i_newarray then
        match stk with
        | nn :: rest =>
          if 0 ≤ nn then
            exec n cl m (pc + 2) ((hp.length : Int) :: rest) loc
              (hp ++ [nn :: List.replicate nn.toNat 0]) out
          else Res.trap
        | _ => Res.trap
      else if op = i_arraylength then
        match stk with
        | r :: rest =>
          if 0 ≤ r ∧ r.toNat < hp.length ∧ 0 < (heapAt hp r).length then
            exec n cl m (pc + 1) ((heapAt hp r).getD 0 0 :: rest) loc hp out
          else Res.trap
        | _ => Res.trap
      else if op = i_areturn then
        match stk with
        | v :: _ => Res.done (some v) hp out
        | _ => Res.trap
      else if op = i_iastore then
        match stk with
        | v :: i :: r :: rest =>
          if 0 ≤ r ∧ r.toNat < hp.length ∧ 0 ≤ i + 1 ∧ (i + 1).toNat < (heapAt hp r).length then
            exec n cl m (pc + 1) rest loc (hp.set r.toNat ((heapAt hp r).set (i + 1).toNat v)) out
          else Res.trap
        | _ => Res.trap
      else if op = i_iaload then
        match stk with
        | i :: r :: rest =>
          if 0 ≤ r ∧ r.toNat < hp.length ∧ 0 ≤ i + 1 ∧ (i + 1).toNat < (heapAt hp r).length then
            exec n cl m (pc + 1) ((heapAt hp r).getD (i + 1).toNat 0 :: rest) loc hp out
          else Res.trap
        | _ => Res.trap
      else if op = i_aload then
        exec n cl m (pc + 2) (loc.getD (byteAt m.code.code (pc + 1)) 0 :: stk) loc hp out
      else if op = i_astore then
        match stk with
        | v :: rest => exec n cl m (pc + 2) rest (loc.set (byteAt m.code.code (pc + 1)) v) hp out
        | _ => Res.trap
      else if i_aload_0 ≤ op ∧ op ≤ i_aload_3 then
        exec n cl m (pc + 1) (loc.getD (op - i_aload_0) 0 :: stk) loc hp out
      else if i_astore_0 ≤ op ∧ op ≤ i_astore_3 then
        match stk with
        | v :: rest => exec n cl m (pc + 1) rest (loc.set (op - i_astore_0) v) hp out
        | _ => Res.trap
      else
        exec n cl m pc stk loc hp out
    else Res.done none hp out

/-- Outcome of the driver `main` (`src/jvm.c:472-506`). -/
inductive DriverRes where
  | exitOK (out : List Int)
  | assertVoidFail
  | missingMain
  | trapped
  | fuelOut
deriving DecidableEq

/-- The driver `main` after a class is loaded (`src/jvm.c:491-499`): locate
`main([Ljava/lang/String;)V`, run it on zero-initialized locals and an empty
heap, then `assert(!result.has_value && "main() should return void")`. -/
def runMain (fuel : Nat) (cl : ClassFile) : DriverRes :=
  match find_method "main" "([Ljava/lang/String;)V" cl with
  | none => DriverRes.missingMain
  | some m =>
    match exec fuel cl m 0 [] (List.replicate m.code.max_locals 0) [] [] with
    | Res.done none _ out => DriverRes.exitOK out
    | Res.done (some _) _ _ => DriverRes.assertVoidFail
    | Res.trap => DriverRes.trapped
    | Res.fuelOut => DriverRes.fuelOut

/-! ### Concrete fixtures for witnesses and counterexamples -/

/-- A class with no constants, no methods and no method references. -/
def emptyClass : ClassFile := ⟨[], [], []⟩

/-- A one-off method wrapping the given code (ample stack, two locals). -/
def testMethod (c : List Nat) : Method := ⟨"t", "()I", 0, ⟨10, 2, c⟩⟩

/-- `goto` with offset bytes `0x00 0x85` (offset `+133` under the spec's
decoding), 130 `nop`s of padding, and `iconst_1; ireturn` at byte offset
133, the branch target the spec's decoding reaches. -/
def mGotoBug : Method :=
  testMethod ([0xA7, 0x00, 0x85] ++ List.replicate 130 0x00 ++ [0x04, 0xAC])

/-- A method whose single byte `0xBB` (the class-file opcode `new`) is not an
opcode of this subset. -/
def mUnknownOp : Method := testMethod [0xBB]

/-- `iconst_1; bipush 32; ishl; ireturn`: shifts 1 left by 32. -/
def mShl32 : Method := testMethod [0x04, 0x10, 0x20, 0x78, 0xAC]

/-- A single `ishl`. -/
def mShl : Method := testMethod [0x78]

/-- A single `ishr`. -/
def mShr : Method := testMethod [0x7A]

/-- A single `iushr`. -/
def mUshr : Method := testMethod [0x7C]

/-- A single `idiv`. -/
def mDiv : Method := testMethod [0x6C]

/-- A single `irem`. -/
def mRem : Method := testMethod [0x70]

/-- A single `iadd`. -/
def mAdd : Method := testMethod [0x60]

/-- `iastore; iaload`. -/
def mStoreLoad : Method := testMethod [0x4F, 0x2E]

/-- `newarray int; arraylength`. -/
def mNewArr : Method := testMethod [0xBC, 0x0A, 0xBE]

/-- `iastore; arraylength`. -/
def mStoreLen : Method := testMethod [0x4F, 0xBE]

/-- A one-parameter callee `iload_0; ireturn`: returns its argument. -/
def calleeId : Method := ⟨"f", "(I)I", 1, ⟨5, 2, [0x1A, 0xAC]⟩⟩

/-- A class holding `calleeId`, resolvable from constant-pool index 7. -/
def clInvoke : ClassFile := ⟨[], [calleeId], [(7, calleeId)]⟩

/-- A caller performing `invokestatic #7; ireturn`. -/
def mInvoke : Method := ⟨"t", "()I", 0, ⟨5, 1, [0xB8, 0x00, 0x07, 0xAC]⟩⟩

/-- A `main` method whose body `iconst_1; ireturn` returns a value although
`main`'s descriptor is void. -/
def mainRetM : Method := ⟨"main", "([Ljava/lang/String;)V", 0, ⟨5, 1, [0x04, 0xAC]⟩⟩

/-- A class whose `main` returns a value. -/
def clMainRet : ClassFile := ⟨[], [mainRetM], []⟩

/-! ### Helper lemmas -/

/-- Reading back the slot just written via `List.set`. -/
theorem List_getD_set_self {α : Type} (l : List α) (n : Nat) (a d : α)
    (h : n < l.length) : (l.set n a).getD n d = a := by
  induction l generalizing n with
  | nil => simp at h
  | cons x xs ih =>
    cases n with
    | zero => rfl
    | succ k => simpa using ih k (by simpa using h)

/-- Dropping up to a freshly set slot exposes the written value. -/
theorem List_drop_set_cons {α : Type} (l : List α) (n : Nat) (a : α)
    (h : n < l.length) : (l.set n a).drop n = a :: l.drop (n + 1) := by
  induction l generalizing n with
  | nil => simp at h
  | cons x xs ih =>
    cases n with
    | zero => rfl
    | succ k => simpa using ih k (by simpa using h)

/-- The element appended at the end of a list sits at index `l.length`. -/
theorem List_getD_append_self {α : Type} (l : List α) (a d : α) :
    (l ++ [a]).getD l.length d = a := by
  induction l with
  | nil => rfl
  | cons x xs ih => simp [ih]

/-- Every read of a replicated list yields the replicated element. -/
theorem List_getD_replicate {α : Type} (c : α) (k i : Nat) :
    (List.replicate k c).getD i c = c := by
  induction k generalizing i with
  | zero => rfl
  | succ k ih =>
    cases i with
    | zero => rfl
    | succ j => simp [ih j]

/-- Dropping a prefix of a replicated list leaves a replicated list. -/
theorem List_drop_replicate {α : Type} (c : α) (k i : Nat) :
    (List.replicate k c).drop i = List.replicate (k - i) c := by
  induction i generalizing k with
  | zero => rfl
  | succ j ih =>
    cases k with
    | zero => simp
    | succ k2 => simp [ih k2]

/-- `wrap32` agrees with reducing modulo `2 ^ 32` and reading the word as a
signed 32-bit integer. -/
theorem wrap32_eq_toSigned32 (x : Int) : wrap32 x = toSigned32 (u32ofInt x) := by
  unfold wrap32 toSigned32 u32ofInt
  have h0 : (0 : Int) ≤ x % 2 ^ 32 := Int.emod_nonneg x (by norm_num)
  have hlt : x % 2 ^ 32 < 2 ^ 32 := Int.emod_lt_of_pos x (by norm_num)
  have hn : (x % 2 ^ 32).toNat % 2 ^ 32 = (x % 2 ^ 32).toNat := Nat.mod_eq_of_lt (by omega)
  rw [hn]
  split <;> omega

/-- The `invokestatic` argument loop started on a stack holding the reversed
arguments pops exactly them, leaving the rest of the stack untouched and
placing argument `i` (left to right) at local slot `i`. -/
theorem popArgs_append (rargs : List Int) :
    ∀ (rest loc : List Int), rargs.length ≤ loc.length →
      popArgs rargs.length (rargs ++ rest) loc
        = some (rest, rargs.reverse ++ loc.drop rargs.length) := by
  induction rargs with
  | nil => intro rest loc _; simp [popArgs]
  | cons v vs ih =>
    intro rest loc h
    have hlen : vs.length < loc.length := Nat.lt_of_lt_of_le (Nat.lt_succ_self _) (by simpa using h)
    have hle : vs.length ≤ (loc.set vs.length v).length := by
      simpa using Nat.le_of_lt hlen
    calc popArgs (v :: vs).length ((v :: vs) ++ rest) loc
        = popArgs vs.length (vs ++ rest) (loc.set vs.length v) := by
          simp [popArgs]
      _ = some (rest, vs.reverse ++ (loc.set vs.length v).drop vs.length) := ih rest _ hle
      _ = some (rest, (v :: vs).reverse ++ loc.drop (v :: vs).length) := by
          rw [List_drop_set_cons loc vs.length v hlen]
          simp

/-! ### Claim theorems -/

/-- C1: the claim says a taken branch sets the new `pc` to the branch
opcode's own address plus the sign-extended 16-bit big-endian offset with
both bytes read as unsigned, in particular for offsets whose low byte has
the high bit set.  The source instead sign-extends the low byte
(`int8_t b2`) before the bitwise or, which overrides the high byte whenever
the low byte's high bit is set: for offset bytes `0x00 0x85` the spec's
decoding (`specOff16`) gives `+133` while the source (`srcOff16`) computes
`-123`, so the `goto` at `pc = 0` in `mGotoBug` underflows the `size_t`
program counter and the run falls off the code returning void instead of
reaching the `iconst_1; ireturn` at offset 133 and returning 1.  The spec
itself flags the source as buggy here and declares that the spec wins, so
this is a bug in the code. -/
theorem goto_offset_code_bug :
    srcOff16 0x00 0x85 = -123
    ∧ specOff16 0x00 0x85 = 133
    ∧ exec 3 emptyClass mGotoBug 0 [] [] [] [] = Res.done none [] []
    ∧ exec 3 emptyClass mGotoBug 0 [] [] [] [] ≠ Res.done (some 1) [] [] := by
  refine ⟨by decide, by decide, by decide, by decide⟩

/-- C2: `invokestatic` with a `k`-parameter callee pops exactly `k` values
off the caller's stack so that parameter `i` (left to right) lands in the
callee's `locals[i]`, zero-initializes the callee's remaining local slots up
to `max_locals`, recursively executes the callee, pushes the callee's return
value if and only if it returned one, and advances the caller's `pc` by 3
(so the caller's stack height changes by `1 - k` for a non-void callee and
`-k` for a void callee). -/
theorem invokestatic_frame_correct (n : Nat) (cl : ClassFile) (m callee : Method)
    (pc : Nat) (args rest loc : List Int) (hp : List (List Int)) (out : List Int)
    (r : Option Int) (hp' : List (List Int)) (out' : List Int)
    (hop : byteAt m.code.code pc = i_invokestatic)
    (hpc : pc < m.code.code.length)
    (hres : find_method_from_index
        (srcOff16 (byteAt m.code.code (pc + 1)) (byteAt m.code.code (pc + 2))) cl
        = some callee)
    (hk : callee.num_params = args.length)
    (hkL : args.length ≤ callee.code.max_locals)
    (hcall : exec n cl callee 0 []
        (args ++ List.replicate (callee.code.max_locals - args.length) 0) hp out
        = Res.done r hp' out') :
    exec (n + 1) cl m pc (args.reverse ++ rest) loc hp out
      = exec n cl m (pc + 3) (pushRet r rest) loc hp' out' := by
  have hpop := popArgs_append args.reverse rest
    (List.replicate callee.code.max_locals 0) (by simpa using hkL)
  rw [List.length_reverse, List.reverse_reverse, List_drop_replicate] at hpop
  simp +decide [exec, hop, hpc, hres, hk, hpop, hcall]

/-- C2 witness: calling the one-parameter identity callee with argument 5 on
a caller stack `[5, 9]` yields the continuation at `pc + 3` with stack
`[5, 9]` (5 popped as the argument, 5 pushed back as the return value). -/
theorem invokestatic_frame_correct_witness :
    exec 4 clInvoke mInvoke 0 [5, 9] [] [] [] = exec 3 clInvoke mInvoke 3 [5, 9] [] [] [] :=
  invokestatic_frame_correct 3 clInvoke mInvoke calleeId 0 [5] [9] [] [] []
    (some 5) [] [] (by decide) (by decide) (by decide) (by decide) (by decide) (by decide)

/-- C3 counterexample: the claim says `ishl` masks the shift amount with
`& 31` for every `b`, including `b ≥ 32`; under that reading
`iconst_1; bipush 32; ishl; ireturn` would return `1 <<< (32 & 31) = 1`.
The source performs the unmasked C shift `a << b`, undefined for `b = 32`
(modelled as a trap), so the run does not return 1. -/
theorem shift_unmasked_counterexample :
    exec 5 emptyClass mShl32 0 [] [] [] [] = Res.trap
    ∧ exec 5 emptyClass mShl32 0 [] [] [] [] ≠ Res.done (some 1) [] [] := by
  refine ⟨by decide, by decide⟩

/-- C3 amended: for shift amounts `0 ≤ b < 32` (exactly the `b` with
`b & 31 = b`), `ishl` pushes `a` shifted left by `b` (with 32-bit wrap),
`ishr` pushes the arithmetic (sign-extending) right shift of `a` by `b`, and
`iushr` pushes the logical right shift of `a` read as unsigned; outside that
range the source performs an unmasked C shift, which is undefined behaviour,
not the claimed `& 31` masking. -/
theorem shifts_in_range_correct (n : Nat) (cl : ClassFile) (m : Method) (pc : Nat)
    (a b : Int) (rest loc : List Int) (hp : List (List Int)) (out : List Int)
    (hpc : pc < m.code.code.length) (hb0 : 0 ≤ b) (hb31 : b < 32) :
    (byteAt m.code.code pc = i_ishl →
      exec (n + 1) cl m pc (b :: a :: rest) loc hp out
        = exec n cl m (pc + 1) (wrap32 (a * 2 ^ b.toNat) :: rest) loc hp out)
    ∧ (byteAt m.code.code pc = i_ishr →
      exec (n + 1) cl m pc (b :: a :: rest) loc hp out
        = exec n cl m (pc + 1) (Int.fdiv a (2 ^ b.toNat) :: rest) loc hp out)
    ∧ (byteAt m.code.code pc = i_iushr →
      exec (n + 1) cl m pc (b :: a :: rest) loc hp out
        = exec n cl m (pc + 1) (toSigned32 (u32ofInt a >>> b.toNat) :: rest) loc hp out) := by
  refine ⟨fun hop => ?_, fun hop => ?_, fun hop => ?_⟩ <;>
    simp +decide [exec, hop, hpc, hb0, hb31]

/-- C3 witness: shifting `-8` by 2 — `ishl` gives `-32`, `ishr` gives `-2`
(sign-extending), `iushr` gives `1073741822` (unsigned). -/
theorem shifts_in_range_correct_witness :
    exec 1 emptyClass mShl 0 [2, -8] [] [] [] = exec 0 emptyClass mShl 1 [-32] [] [] []
    ∧ exec 1 emptyClass mShr 0 [2, -8] [] [] [] = exec 0 emptyClass mShr 1 [-2] [] [] []
    ∧ exec 1 emptyClass mUshr 0 [2, -8] [] [] []
        = exec 0 emptyClass mUshr 1 [1073741822] [] [] [] := by
  refine ⟨?_, ?_, ?_⟩
  · exact (shifts_in_range_correct 0 emptyClass mShl 0 (-8) 2 [] [] [] []
      (by decide) (by decide) (by decide)).1 (by decide)
  · exact (shifts_in_range_correct 0 emptyClass mShr 0 (-8) 2 [] [] [] []
      (by decide) (by decide) (by decide)).2.1 (by decide)
  · exact (shifts_in_range_correct 0 emptyClass mUshr 0 (-8) 2 [] [] [] []
      (by decide) (by decide) (by decide)).2.2 (by decide)

/-- C4: the claim says an opcode byte outside this subset aborts execution
with a diagnostic.  The source's dispatch `switch` has no `default` case, so
an unknown opcode (here `0xBB`, the class-file `new`) matches no case,
leaves the whole state — including `pc` — unchanged, and the loop
re-dispatches the same byte forever: the run exhausts any amount of fuel
instead of aborting.  The spec ("malformed opcodes … are fatal (abort with a
diagnostic)") is clearly the intent, so this is a bug in the code. -/
theorem unknown_opcode_loops :
    ∀ fl : Nat, exec fl emptyClass mUnknownOp 0 [] [] [] [] = Res.fuelOut := by
  intro fl
  induction fl with
  | zero => rfl
  | succ k ih =>
    calc exec (k + 1) emptyClass mUnknownOp 0 [] [] [] []
        = exec k emptyClass mUnknownOp 0 [] [] [] [] := by
          simp +decide [exec, mUnknownOp, testMethod, byteAt]
      _ = Res.fuelOut := ih

/-- C5 counterexample: the claim says `idiv` aborts if and only if the
divisor is 0, and otherwise pushes the quotient.  With `a = -2^31` and
`b = -1` the divisor is nonzero, yet the C division `a / b` overflows
`int32_t` — undefined behaviour (a SIGFPE abort on mainstream hardware,
modelled as a trap) — so the run aborts with a nonzero divisor. -/
theorem idiv_intmin_counterexample :
    exec 1 emptyClass mDiv 0 [-1, -2147483648] [] [] [] = Res.trap
    ∧ ((-1 : Int) ≠ 0) := by
  refine ⟨by decide, by decide⟩

/-- C5 amended: `idiv` and `irem` pop `b` (top) then `a`, and abort when
`b = 0`; for `b ≠ 0` with `(a, b) ≠ (-2^31, -1)`, `idiv` pushes the
truncated quotient and `irem` the truncated remainder, with no other change
to locals, heap or the rest of the stack.  The abort is not *only* at
`b = 0`: the case `a = -2^31, b = -1` is undefined in the source (and aborts
on mainstream hardware). -/
theorem idiv_irem_correct (n : Nat) (cl : ClassFile) (m : Method) (pc : Nat)
    (a b : Int) (rest loc : List Int) (hp : List (List Int)) (out : List Int)
    (hpc : pc < m.code.code.length) :
    (byteAt m.code.code pc = i_idiv → b = 0 →
      exec (n + 1) cl m pc (b :: a :: rest) loc hp out = Res.trap)
    ∧ (byteAt m.code.code pc = i_irem → b = 0 →
      exec (n + 1) cl m pc (b :: a :: rest) loc hp out = Res.trap)
    ∧ (byteAt m.code.code pc = i_idiv → b ≠ 0 → ¬(a = -(2 ^ 31) ∧ b = -1) →
      exec (n + 1) cl m pc (b :: a :: rest) loc hp out
        = exec n cl m (pc + 1) (a.tdiv b :: rest) loc hp out)
    ∧ (byteAt m.code.code pc = i_irem → b ≠ 0 → ¬(a = -(2 ^ 31) ∧ b = -1) →
      exec (n + 1) cl m pc (b :: a :: rest) loc hp out
        = exec n cl m (pc + 1) (a.tmod b :: rest) loc hp out) := by
  refine ⟨fun hop hz => ?_, fun hop hz => ?_,
    fun hop hz hov => ?_, fun hop hz hov => ?_⟩
  · simp +decide [exec, hop, hpc, hz]
  · simp +decide [exec, hop, hpc, hz]
  · simp +decide [exec, hop, hpc, hz]
    intro h1 h2
    exact (hov (by norm_num [h1, h2])).elim
  · simp +decide [exec, hop, hpc, hz]
    intro h1 h2
    exact (hov (by norm_num [h1, h2])).elim

/-- C5 witness: `7 idiv 0` traps; `7 idiv 3 = 2` and `7 irem 3 = 1`
(the spec's end-to-end scenario 4). -/
theorem idiv_irem_correct_witness :
    exec 1 emptyClass mDiv 0 [0, 7] [] [] [] = Res.trap
    ∧ exec 1 emptyClass mDiv 0 [3, 7] [] [] [] = exec 0 emptyClass mDiv 1 [2] [] [] []
    ∧ exec 1 emptyClass mRem 0 [3, 7] [] [] [] = exec 0 emptyClass mRem 1 [1] [] [] [] := by
  refine ⟨?_, ?_, ?_⟩
  · exact (idiv_irem_correct 0 emptyClass mDiv 0 7 0 [] [] [] [] (by decide)).1
      (by decide) rfl
  · exact (idiv_irem_correct 0 emptyClass mDiv 0 7 3 [] [] [] [] (by decide)).2.2.1
      (by decide) (by decide) (by decide)
  · exact (idiv_irem_correct 0 emptyClass mRem 0 7 3 [] [] [] [] (by decide)).2.2.2
      (by decide) (by decide) (by decide)

/-- C6: `iadd`, `isub`, `imul` and `ineg` compute their result with
two's-complement wrap-around — the pushed value is the mathematical result
reduced modulo `2 ^ 32` and interpreted as a signed 32-bit integer,
including on overflow. -/
theorem arith_wrap_correct (n : Nat) (cl : ClassFile) (m : Method) (pc : Nat)
    (a b : Int) (rest loc : List Int) (hp : List (List Int)) (out : List Int)
    (hpc : pc < m.code.code.length)
    (ha : -(2 ^ 31) ≤ a ∧ a < 2 ^ 31) (hb : -(2 ^ 31) ≤ b ∧ b < 2 ^ 31) :
    (byteAt m.code.code pc = i_iadd →
      exec (n + 1) cl m pc (b :: a :: rest) loc hp out
        = exec n cl m (pc + 1) (toSigned32 (u32ofInt (a + b)) :: rest) loc hp out)
    ∧ (byteAt m.code.code pc = i_isub →
      exec (n + 1) cl m pc (b :: a :: rest) loc hp out
        = exec n cl m (pc + 1) (toSigned32 (u32ofInt (a - b)) :: rest) loc hp out)
    ∧ (byteAt m.code.code pc = i_imul →
      exec (n + 1) cl m pc (b :: a :: rest) loc hp out
        = exec n cl m (pc + 1) (toSigned32 (u32ofInt (a * b)) :: rest) loc hp out)
    ∧ (byteAt m.code.code pc = i_ineg →
      exec (n + 1) cl m pc (a :: rest) loc hp out
        = exec n cl m (pc + 1) (toSigned32 (u32ofInt (-a)) :: rest) loc hp out) := by
  refine ⟨fun hop => ?_, fun hop => ?_, fun hop => ?_, fun hop => ?_⟩ <;>
    simp +decide [exec, hop, hpc, ← wrap32_eq_toSigned32]

/-- C6 witness: `INT_MAX + 1` wraps to `INT_MIN`. -/
theorem arith_wrap_correct_witness :
    exec 1 emptyClass mAdd 0 [1, 2147483647] [] [] []
      = exec 0 emptyClass mAdd 1 [-2147483648] [] [] []
    ∧ toSigned32 (u32ofInt (2147483647 + 1)) = -2147483648 := by
  refine ⟨?_, by decide⟩
  exact (arith_wrap_correct 0 emptyClass mAdd 0 2147483647 1 [] [] [] []
    (by decide) (by decide) (by decide)).1 (by decide)

/-- C7: `iastore` on `(ref, i, v)` followed by `iaload` on `(ref, i)` with
no intervening write pushes exactly `v`; both opcodes address the heap slot
`heap[ref][i + 1]`. -/
theorem iastore_iaload_roundtrip (n : Nat) (cl : ClassFile) (m : Method) (pc : Nat)
    (rv iv v : Int) (rest loc : List Int) (hp : List (List Int)) (out : List Int)
    (h1 : byteAt m.code.code pc = i_iastore)
    (h2 : byteAt m.code.code (pc + 1) = i_iaload)
    (hlen : pc + 1 < m.code.code.length)
    (hr0 : 0 ≤ rv) (hrl : rv.toNat < hp.length)
    (hi0 : 0 ≤ iv + 1) (hil : (iv + 1).toNat < (heapAt hp rv).length) :
    exec (n + 1 + 1) cl m pc (v :: iv :: rv :: iv :: rv :: rest) loc hp out
      = exec n cl m (pc + 2) (v :: rest) loc
          (hp.set rv.toNat ((heapAt hp rv).set (iv + 1).toNat v)) out
    ∧ (heapAt (hp.set rv.toNat ((heapAt hp rv).set (iv + 1).toNat v)) rv).getD
        (iv + 1).toNat 0 = v := by
  have hpc : pc < m.code.code.length := Nat.lt_of_succ_lt hlen
  have hset : heapAt (hp.set rv.toNat ((heapAt hp rv).set (iv + 1).toNat v)) rv
      = (heapAt hp rv).set (iv + 1).toNat v := by
    unfold heapAt
    exact List_getD_set_self hp rv.toNat _ [] hrl
  have hread : ((heapAt hp rv).set (iv + 1).toNat v).getD (iv + 1).toNat 0 = v :=
    List_getD_set_self _ _ _ _ hil
  refine ⟨?_, by rw [hset]; exact hread⟩
  simp +decide [exec, h1, h2, hpc, hlen, hr0, hrl, hi0, hil, hset, hread]

/-- C7 witness: storing 42 at index 0 of a length-3 array and loading it
back pushes 42, through heap slot `heap[0][1]`. -/
theorem iastore_iaload_roundtrip_witness :
    exec 2 emptyClass mStoreLoad 0 [42, 0, 0, 0, 0] [] [[3, 0, 0, 0]] []
      = exec 0 emptyClass mStoreLoad 2 [42] [] [[3, 42, 0, 0]] []
    ∧ (heapAt [[3, 42, 0, 0]] 0).getD 1 0 = 42 :=
  iastore_iaload_roundtrip 0 emptyClass mStoreLoad 0 0 0 42 [] [] [[3, 0, 0, 0]] []
    (by decide) (by decide) (by decide) (by decide) (by decide) (by decide) (by decide)

/-- C8: `newarray` on a nonnegative `n` pushes the reference returned by
appending the new buffer to the heap (its index), a following `arraylength`
on that reference pushes exactly `n`, and every untouched element slot of
the new buffer reads 0. -/
theorem newarray_arraylength_correct (n : Nat) (cl : ClassFile) (m : Method) (pc : Nat)
    (nn : Int) (rest loc : List Int) (hp : List (List Int)) (out : List Int)
    (h1 : byteAt m.code.code pc = i_newarray)
    (h2 : byteAt m.code.code (pc + 2) = i_arraylength)
    (hlen : pc + 2 < m.code.code.length)
    (hnn : 0 ≤ nn) :
    exec (n + 1) cl m pc (nn :: rest) loc hp out
      = exec n cl m (pc + 2) ((hp.length : Int) :: rest) loc
          (hp ++ [nn :: List.replicate nn.toNat 0]) out
    ∧ exec (n + 1 + 1) cl m pc (nn :: rest) loc hp out
      = exec n cl m (pc + 3) (nn :: rest) loc (hp ++ [nn :: List.replicate nn.toNat 0]) out
    ∧ ∀ i : Nat, i < nn.toNat → (nn :: List.replicate nn.toNat 0).getD (i + 1) 0 = 0 := by
  have hpc : pc < m.code.code.length := by omega
  have e1 : heapAt (hp ++ [nn :: List.replicate nn.toNat 0]) ((hp.length : Int))
      = nn :: List.replicate nn.toNat 0 := by
    unfold heapAt
    simp [List_getD_append_self hp (nn :: List.replicate nn.toNat 0) []]
  refine ⟨?_, ?_, ?_⟩
  · simp +decide [exec, h1, hpc, hnn]
  · simp +decide [exec, h1, h2, hpc, hlen, hnn, e1, Int.natCast_nonneg]
  · intro i hi
    simp [List_getD_replicate (0 : Int) nn.toNat i]

/-- C8 witness: `newarray` on length 2 over an empty heap pushes reference
0 and appends the buffer `[2, 0, 0]`; `arraylength` then pushes 2; both
element slots read 0. -/
theorem newarray_arraylength_correct_witness :
    exec 1 emptyClass mNewArr 0 [2] [] [] [] = exec 0 emptyClass mNewArr 2 [0] [] [[2, 0, 0]] []
    ∧ exec 2 emptyClass mNewArr 0 [2] [] [] [] = exec 0 emptyClass mNewArr 3 [2] [] [[2, 0, 0]] []
    ∧ ∀ i : Nat, i < 2 → ([2, 0, 0] : List Int).getD (i + 1) 0 = 0 :=
  newarray_arraylength_correct 0 emptyClass mNewArr 0 2 [] [] [] []
    (by decide) (by decide) (by decide) (by decide)

/-- C9: `iastore` performs no bounds check: with index `-1` it writes heap
slot `heap[ref][0]`, the length slot, so a following `arraylength` on the
same reference pushes the stored value `v` instead of the allocated
length. -/
theorem iastore_negative_index_overwrites_length (n : Nat) (cl : ClassFile) (m : Method)
    (pc : Nat) (rv v a0 : Int) (tail rest loc : List Int) (hp : List (List Int))
    (out : List Int)
    (h1 : byteAt m.code.code pc = i_iastore)
    (h2 : byteAt m.code.code (pc + 1) = i_arraylength)
    (hlen : pc + 1 < m.code.code.length)
    (hr0 : 0 ≤ rv) (hrl : rv.toNat < hp.length)
    (hbuf : heapAt hp rv = a0 :: tail) :
    exec (n + 1 + 1) cl m pc (v :: -1 :: rv :: rv :: rest) loc hp out
      = exec n cl m (pc + 2) (v :: rest) loc (hp.set rv.toNat (v :: tail)) out
    ∧ (heapAt (hp.set rv.toNat (v :: tail)) rv).getD 0 0 = v := by
  have hpc : pc < m.code.code.length := Nat.lt_of_succ_lt hlen
  have hset : heapAt (hp.set rv.toNat (v :: tail)) rv = v :: tail := by
    unfold heapAt
    exact List_getD_set_self hp rv.toNat _ [] hrl
  refine ⟨?_, by rw [hset]; rfl⟩
  simp +decide [exec, h1, h2, hpc, hlen, hr0, hrl, hbuf, hset]

/-- C9 witness: writing 7 at index `-1` of the length-3 array at reference
0 turns its length slot into 7, and `arraylength` then pushes 7. -/
theorem iastore_negative_index_overwrites_length_witness :
    exec 2 emptyClass mStoreLen 0 [7, -1, 0, 0] [] [[3, 0, 0, 0]] []
      = exec 0 emptyClass mStoreLen 2 [7] [] [[7, 0, 0, 0]] []
    ∧ (heapAt [[7, 0, 0, 0]] 0).getD 0 0 = 7 :=
  iastore_negative_index_overwrites_length 0 emptyClass mStoreLen 0 0 7 3 [0, 0, 0] [] []
    [[3, 0, 0, 0]] [] (by decide) (by decide) (by decide) (by decide) (by decide) (by decide)

/-- C10: after executing `main`, the driver asserts the returned optional
value is void — if `main`'s bytecode returns a value via `ireturn` or
`areturn`, the process fails the assertion instead of exiting with
status 0. -/
theorem main_return_value_asserts (fl : Nat) (cl : ClassFile) (m : Method) (v : Int)
    (hp' : List (List Int)) (out' : List Int)
    (hfind : find_method "main" "([Ljava/lang/String;)V" cl = some m)
    (hrun : exec fl cl m 0 [] (List.replicate m.code.max_locals 0) [] []
        = Res.done (some v) hp' out') :
    runMain fl cl = DriverRes.assertVoidFail
    ∧ DriverRes.assertVoidFail ≠ DriverRes.exitOK out' := by
  refine ⟨?_, by simp⟩
  simp only [runMain, hfind, hrun]

/-- C10 witness: a `main` whose body is `iconst_1; ireturn` makes the driver
fail the void assertion. -/
theorem main_return_value_asserts_witness :
    runMain 3 clMainRet = DriverRes.assertVoidFail
    ∧ DriverRes.assertVoidFail ≠ DriverRes.exitOK [] :=
  main_return_value_asserts 3 clMainRet mainRetM 1 [] [] (by decide) (by decide)

end TeenyJVM
